import Mathlib

set_option maxRecDepth 10000

/-!
Verification development for the intent-driven UI automation runner
(`runner/locator.py`, `runner/verifier.py`, `runner/recovery.py`,
`runner/orchestrator.py`).

The embedding is shallow and executable:

* Python strings are `String` (a wrapper around `List Char`); every string
  operation used by the source (`lower`, `strip`, substring test, the
  `difflib.SequenceMatcher` ratio, regexes for tokens / word-boundary
  substitution / quoted literals) is re-implemented here over `List Char`,
  restricted to the ASCII behaviour the source relies on.
* Python floats are modelled by exact rationals (`Rat`); all the score
  constants (0.55, 0.35, 0.06, ...) are exact decimal fractions.
* Recursions that Python performs on strings are written with an explicit
  structural fuel argument equal to the input length (each step consumes at
  least one character, so the fuel never runs out); this keeps every
  definition kernel-computable.
* Side effects (the live page, the executor, perception snapshots) are
  modelled by explicit oracle records; effect counters record how many times
  each external collaborator is invoked.
-/

/-- Single-quote character (spelled via its code point). -/
def sqCh : Char := Char.ofNat 39

/-- Double-quote character. -/
def dqCh : Char := Char.ofNat 34

/-- ASCII whitespace stripped by Python's `str.strip()`. -/
def isSpaceChar (c : Char) : Bool :=
  c == ' ' || c == Char.ofNat 9 || c == Char.ofNat 10 || c == Char.ofNat 13 ||
  c == Char.ofNat 11 || c == Char.ofNat 12

/-- `str.strip()` on the character list. -/
def trimList (l : List Char) : List Char :=
  ((l.dropWhile isSpaceChar).reverse.dropWhile isSpaceChar).reverse

/-- `str.strip()`. -/
def trimStr (s : String) : String := ⟨trimList s.data⟩

/-- `str.lower()` (ASCII behaviour). -/
def lowerStr (s : String) : String := ⟨s.data.map Char.toLower⟩

/-- Substring test scanning: is `pat` a contiguous substring? -/
def listHasInfix (pat : List Char) : List Char → Bool
  | [] => pat.isEmpty
  | c :: rest => pat.isPrefixOf (c :: rest) || listHasInfix pat rest

/-- Python's `pat in s` substring test. -/
def strHasSub (s pat : String) : Bool := listHasInfix pat.data s.data

/-- `" ".join(fields)`. -/
def joinSpace (fields : List String) : String :=
  ⟨List.intercalate [' '] (fields.map (fun f => f.data))⟩

/-! ### Tokenization (`locator._tokens`, regex `[a-z0-9+]+` on the lowercased
string, with the stopword set removed) -/

/-- The stopword set of `runner/locator.py`. -/
def STOPWORDS : List String :=
  ["the", "a", "an", "to", "on", "in", "of", "for", "with", "and", "or",
   "by", "is", "be", "button", "option", "menu", "item", "page", "view",
   "prompt", "dialog", "modal"]

/-- A character matched by the token regex `[a-z0-9+]`. -/
def isTokChar (c : Char) : Bool :=
  (decide ('a' ≤ c) && decide (c ≤ 'z')) ||
  (decide ('0' ≤ c) && decide (c ≤ '9')) || c == '+'

/-- Accumulate maximal runs of token characters (`re.findall("[a-z0-9+]+", s)`).
`cur` holds the current run reversed. -/
def tokenRunsGo : List Char → List Char → List String
  | cur, [] => if cur.isEmpty then [] else [⟨cur.reverse⟩]
  | cur, c :: rest =>
    if isTokChar c then tokenRunsGo (c :: cur) rest
    else if cur.isEmpty then tokenRunsGo [] rest
    else ⟨cur.reverse⟩ :: tokenRunsGo [] rest

/-- `locator._tokens`: lowercase, take `[a-z0-9+]+` runs, drop stopwords. -/
def tokensOf (s : String) : List String :=
  (tokenRunsGo [] (lowerStr s).data).filter (fun t => !STOPWORDS.contains t)

/-! ### Quoted-literal extraction (`locator._extract_quoted`;
regex `'([^']{1,200})'|"([^"]{1,200})"`, each group stripped) -/

/-- Split at the first occurrence of `q`: contents before it and the rest after. -/
def splitAtChar (q : Char) : List Char → Option (List Char × List Char)
  | [] => none
  | c :: rest =>
    if c == q then some ([], rest)
    else
      match splitAtChar q rest with
      | none => none
      | some (before, after) => some (c :: before, after)

/-- Left-to-right scan for quoted literals.  At an opening quote the regex
matches iff the same quote char reappears with 1..200 characters in between;
on a match scanning resumes after the closing quote, otherwise at the next
character.  Fuel is the remaining length (each step consumes ≥ 1 char). -/
def extractQuotedGo : Nat → List Char → List String
  | 0, _ => []
  | _fuel + 1, [] => []
  | fuel + 1, c :: rest =>
    if c == sqCh || c == dqCh then
      match splitAtChar c rest with
      | some (content, after) =>
        if 1 ≤ content.length ∧ content.length ≤ 200 then
          trimStr ⟨content⟩ :: extractQuotedGo fuel after
        else extractQuotedGo fuel rest
      | none => extractQuotedGo fuel rest
    else extractQuotedGo fuel rest

/-- `locator._extract_quoted` (also `verifier._extract_all_quoted`, the same
regex). -/
def extract_quoted (s : String) : List String :=
  extractQuotedGo s.data.length s.data

/-! ### Boundary-safe synonym folding (`locator._normalize_intent`;
`re.sub(rf"\b{re.escape(w)}\b", base, s)` for each synonym) -/

/-- Python regex word character (`\w`, ASCII behaviour). -/
def isWordChar (c : Char) : Bool := c.isAlphanum || c == '_'

def wordy : Option Char → Bool
  | some c => isWordChar c
  | none => false

/-- A `\b` boundary sits between two positions whose word-ness differs
(out-of-string counts as non-word). -/
def bdry (a b : Option Char) : Bool := wordy a != wordy b

/-- One `re.sub` pass for a literal pattern with `\b` on both sides: scan the
string left to right; at a position where the pattern occurs with valid
boundaries, emit the replacement and resume after the matched region (the
boundary for a later match uses the last character of the matched original
text).  Fuel = remaining length. -/
def subWordGo (pat repl : List Char) : Nat → Option Char → List Char → List Char
  | 0, _, s => s
  | _fuel + 1, _prev, [] => []
  | fuel + 1, prev, c :: rest =>
    if !pat.isEmpty && pat.isPrefixOf (c :: rest) && bdry prev (some c)
        && bdry pat.getLast? (((c :: rest).drop pat.length).head?) then
      repl ++ subWordGo pat repl fuel pat.getLast? ((c :: rest).drop pat.length)
    else
      c :: subWordGo pat repl fuel (some c) rest

def subWord (pat repl s : List Char) : List Char :=
  subWordGo pat repl s.length none s

/-- The synonym map of `runner/locator.py`, in insertion order. -/
def SYNONYMS : List (String × List String) :=
  [("click", ["press", "tap", "select", "choose"]),
   ("open", ["navigate", "go to"]),
   ("create", ["new", "add", "+"]),
   ("delete", ["remove", "trash", "discard"]),
   ("settings", ["preferences", "options"]),
   ("name", ["title"]),
   ("project", ["projects"])]

/-- `locator._normalize_intent`: lowercase, then substitute every synonym
word (whole-word) by its base term, in map order. -/
def normalize_intent (intent : String) : String :=
  ⟨SYNONYMS.foldl (fun s p => p.2.foldl (fun s w => subWord w.data p.1.data s) s)
    (lowerStr intent).data⟩

/-! ### `difflib.SequenceMatcher.ratio` (`locator._ratio`)

For the short strings the locator compares (b below 200 characters) the
autojunk heuristic is inactive, so `ratio` is the plain Ratcliff/Obershelp
measure: repeatedly take the longest common contiguous block (earliest start
in `a`, then earliest in `b`, on ties), recurse on both sides, and let `M` be
the total matched length; the ratio is `2*M / (|a| + |b|)`. -/

/-- Length of the common run starting at the heads of both lists. -/
def runLen : List Char → List Char → Nat
  | a :: as, b :: bs => if a = b then runLen as bs + 1 else 0
  | _, _ => 0

/-- Longest matching block `(i, j, size)`: maximal `runLen` over all start
pairs, scanning `i` then `j` ascending and keeping the first strict maximum —
the same block `difflib.find_longest_match` returns when no junk is set. -/
def findLongestMatch (a b : List Char) : Nat × Nat × Nat :=
  (List.range a.length).foldl (fun best i =>
    (List.range b.length).foldl (fun best j =>
      if best.2.2 < runLen (a.drop i) (b.drop j) then (i, j, runLen (a.drop i) (b.drop j))
      else best) best) (0, 0, 0)

/-- Total matched size of `difflib.get_matching_blocks`: the longest block
plus, recursively, the matches strictly before and strictly after it.  Fuel
`|a| + |b|` bounds the recursion depth (both sides shrink at every split). -/
def roMatchFuel : Nat → List Char → List Char → Nat
  | 0, _, _ => 0
  | fuel + 1, a, b =>
    if (findLongestMatch a b).2.2 = 0 then 0
    else
      (findLongestMatch a b).2.2
      + roMatchFuel fuel (a.take (findLongestMatch a b).1) (b.take (findLongestMatch a b).2.1)
      + roMatchFuel fuel (a.drop ((findLongestMatch a b).1 + (findLongestMatch a b).2.2))
          (b.drop ((findLongestMatch a b).2.1 + (findLongestMatch a b).2.2))

def roMatch (a b : List Char) : Nat := roMatchFuel (a.length + b.length) a b

/-- `locator._ratio`: `0.0` when either side is empty, else
`SequenceMatcher(None, a, b).ratio()`. -/
def seqRatioQ (a b : List Char) : Rat :=
  if a.isEmpty || b.isEmpty then 0
  else ((2 * roMatch a b : Nat) : Rat) / ((a.length + b.length : Nat) : Rat)

/-! ### Bounds for the fuzzy ratio -/

theorem foldl_preserve {α : Type} {β : Type} {P : β → Prop} (f : β → α → β)
    (h : ∀ acc x, P acc → P (f acc x)) :
    ∀ (l : List α) (acc : β), P acc → P (l.foldl f acc) := by
  intro l
  induction l with
  | nil => intro acc hacc; simpa using hacc
  | cons x xs ih =>
    intro acc hacc
    simpa using ih (f acc x) (h acc x hacc)

theorem runLen_le_left : ∀ (a b : List Char), runLen a b ≤ a.length := by
  intro a
  induction a with
  | nil => intro b; cases b <;> simp [runLen]
  | cons c as ih =>
    intro b
    cases b with
    | nil => simp [runLen]
    | cons d bs =>
      simp only [runLen, List.length_cons]
      split
      · exact Nat.succ_le_succ (ih bs)
      · exact Nat.zero_le _

theorem runLen_le_right : ∀ (a b : List Char), runLen a b ≤ b.length := by
  intro a
  induction a with
  | nil => intro b; cases b <;> simp [runLen]
  | cons c as ih =>
    intro b
    cases b with
    | nil => simp [runLen]
    | cons d bs =>
      simp only [runLen, List.length_cons]
      split
      · exact Nat.succ_le_succ (ih bs)
      · exact Nat.zero_le _

theorem findLongestMatch_bound (a b : List Char) :
    (findLongestMatch a b).2.2 ≤ a.length - (findLongestMatch a b).1 ∧
    (findLongestMatch a b).2.2 ≤ b.length - (findLongestMatch a b).2.1 := by
  unfold findLongestMatch
  apply foldl_preserve
    (P := fun t : Nat × Nat × Nat => t.2.2 ≤ a.length - t.1 ∧ t.2.2 ≤ b.length - t.2.1)
  · intro acc i hacc
    apply foldl_preserve
      (P := fun t : Nat × Nat × Nat => t.2.2 ≤ a.length - t.1 ∧ t.2.2 ≤ b.length - t.2.1)
    · intro acc2 j hacc2
      dsimp only
      split
      · constructor
        · calc runLen (a.drop i) (b.drop j) ≤ (a.drop i).length := runLen_le_left _ _
            _ = a.length - i := List.length_drop i a
        · calc runLen (a.drop i) (b.drop j) ≤ (b.drop j).length := runLen_le_right _ _
            _ = b.length - j := List.length_drop j b
      · exact hacc2
    · exact hacc
  · exact ⟨Nat.zero_le _, Nat.zero_le _⟩

theorem roMatchFuel_le_left :
    ∀ (fuel : Nat) (a b : List Char), roMatchFuel fuel a b ≤ a.length := by
  intro fuel
  induction fuel with
  | zero => intro a b; simp [roMatchFuel]
  | succ n ih =>
    intro a b
    simp only [roMatchFuel]
    split
    · exact Nat.zero_le _
    · rename_i hk
      have hb := (findLongestMatch_bound a b).1
      have h1 := ih (a.take (findLongestMatch a b).1) (b.take (findLongestMatch a b).2.1)
      have h2 := ih (a.drop ((findLongestMatch a b).1 + (findLongestMatch a b).2.2))
        (b.drop ((findLongestMatch a b).2.1 + (findLongestMatch a b).2.2))
      rw [List.length_take] at h1
      rw [List.length_drop] at h2
      omega

theorem roMatchFuel_le_right :
    ∀ (fuel : Nat) (a b : List Char), roMatchFuel fuel a b ≤ b.length := by
  intro fuel
  induction fuel with
  | zero => intro a b; simp [roMatchFuel]
  | succ n ih =>
    intro a b
    simp only [roMatchFuel]
    split
    · exact Nat.zero_le _
    · rename_i hk
      have hb := (findLongestMatch_bound a b).2
      have h1 := ih (a.take (findLongestMatch a b).1) (b.take (findLongestMatch a b).2.1)
      have h2 := ih (a.drop ((findLongestMatch a b).1 + (findLongestMatch a b).2.2))
        (b.drop ((findLongestMatch a b).2.1 + (findLongestMatch a b).2.2))
      rw [List.length_take] at h1
      rw [List.length_drop] at h2
      omega

theorem seqRatioQ_nonneg (a b : List Char) : 0 ≤ seqRatioQ a b := by
  unfold seqRatioQ
  split
  · exact le_refl 0
  · exact div_nonneg (Nat.cast_nonneg _) (Nat.cast_nonneg _)

theorem seqRatioQ_le_one (a b : List Char) : seqRatioQ a b ≤ 1 := by
  unfold seqRatioQ
  split
  · exact zero_le_one
  · rename_i h
    have ha : a ≠ [] := by
      intro hc
      exact h (by simp [hc])
    have hb : b ≠ [] := by
      intro hc
      exact h (by simp [hc])
    have hlen : 0 < a.length + b.length := by
      have := List.length_pos.mpr ha
      omega
    rw [div_le_one (by exact_mod_cast hlen)]
    have hm1 : roMatch a b ≤ a.length := roMatchFuel_le_left _ a b
    have hm2 : roMatch a b ≤ b.length := roMatchFuel_le_right _ a b
    exact_mod_cast (by omega : 2 * roMatch a b ≤ a.length + b.length)

/-! ## The element data model

One perceived element record (`ElementRecord` of the spec): the fields the
locator and recovery read via `el.get(...)`.  Missing keys are `none`;
numeric fields are exact rationals. -/

structure Element where
  text : Option String
  aria_label : Option String
  title : Option String
  tooltip : Option String
  role : Option String
  tag : Option String
  x : Option Rat
  y : Option Rat
  width : Option Rat
  height : Option Rat
deriving DecidableEq

/-- The four stripped label fields `[text, aria, title, tip]` of
`locator._score_element`. -/
def fieldsOf (el : Element) : List String :=
  [trimStr (el.text.getD ""), trimStr (el.aria_label.getD ""),
   trimStr (el.title.getD ""), trimStr (el.tooltip.getD "")]

/-! ### Dialog geometry (`locator._find_dialog_bounds`, `locator._inside`) -/

/-- Pick the largest `role=dialog` element by area, requiring
`width > 10 ∧ height > 10`; `float(el.get(k) or 0)` reads missing
coordinates as 0. -/
def find_dialog_bounds (perceived : List Element) : Option (Rat × Rat × Rat × Rat) :=
  (perceived.foldl (fun acc el =>
    if lowerStr (el.role.getD "") == "dialog" then
      if decide (acc.2 < max 0 (el.width.getD 0) * max 0 (el.height.getD 0))
          && decide ((10 : Rat) < el.width.getD 0) && decide ((10 : Rat) < el.height.getD 0) then
        (some (el.x.getD 0, el.y.getD 0, el.width.getD 0, el.height.getD 0),
         max 0 (el.width.getD 0) * max 0 (el.height.getD 0))
      else acc
    else acc) (none, 0)).1

/-- `locator._inside`: the element's box is fully contained in `bounds`. -/
def insideB (bounds : Rat × Rat × Rat × Rat) (el : Element) : Bool :=
  decide (bounds.1 ≤ el.x.getD 0) && decide (bounds.2.1 ≤ el.y.getD 0)
  && decide (el.x.getD 0 + el.width.getD 0 ≤ bounds.1 + bounds.2.2.1)
  && decide (el.y.getD 0 + el.height.getD 0 ≤ bounds.2.1 + bounds.2.2.2)

/-! ### Scoring (`locator._score_element`), decomposed into the additive
terms of the source, applied in the source's order. -/

/-- `locator._fieldwise_fuzzy`: best `_ratio` between the normalized intent
and each non-empty field, lowercased. -/
def fieldwiseFuzzy (intentNorm : String) (fields : List String) : Rat :=
  fields.foldl (fun best f =>
    if f == "" then best
    else if best < seqRatioQ intentNorm.data (lowerStr f).data then
      seqRatioQ intentNorm.data (lowerStr f).data
    else best) 0

/-- `locator._token_overlap`: `|set(intent) ∩ set(el)| / max(1, |set(intent)|)`,
0 for an empty intent token list. -/
def tokenOverlap (intentTokens elTokens : List String) : Rat :=
  if intentTokens.isEmpty then 0
  else
    (((intentTokens.eraseDups.filter (fun t => elTokens.contains t)).length : Nat) : Rat)
      / ((max 1 intentTokens.eraseDups.length : Nat) : Rat)

/-- Does the normalized intent signal an activation action? -/
def actKw (s : String) : Bool :=
  ["click", "open", "create", "delete", "submit"].any (fun k => strHasSub s k)

/-- Does the normalized intent signal a fill action? -/
def fillKw (s : String) : Bool :=
  strHasSub s "fill" || strHasSub s "input" || strHasSub s "type"

/-- The role-aware boosts of `_score_element` (lines 141-149): +0.06 for an
activation role, +0.03 for an activation tag, +0.10 for a fill target. -/
def roleBonus (intentNorm role tag : String) : Rat :=
  (if actKw intentNorm then
    (if role == "button" || role == "menuitem" || role == "link" then 6/100 else 0)
    + (if tag == "button" || tag == "a" then 3/100 else 0)
  else 0)
  + (if fillKw intentNorm then
      (if role == "textbox" || role == "combobox" || tag == "input" || tag == "textarea"
       then 10/100 else 0)
    else 0)

/-- The dialog-aware adjustment of `_score_element` (lines 151-156):
+0.08 inside the dialog bounds, −0.04 outside. -/
def dialogAdj (db : Option (Rat × Rat × Rat × Rat)) (el : Element) : Rat :=
  match db with
  | none => 0
  | some b => if insideB b el then 8/100 else -(4/100)

/-- The quoted-label super-boost of `_score_element` (lines 158-162): +0.30
iff the FIRST quoted literal, lowercased, is non-empty and equals some
stripped lowercased field. -/
def quoteBonus (quoted : List String) (fields : List String) : Rat :=
  match quoted with
  | [] => 0
  | q0 :: _ =>
    if !(lowerStr q0 == "") && fields.any (fun f => lowerStr (trimStr f) == lowerStr q0)
    then 30/100 else 0

/-- The long-blob penalty of `_score_element` (lines 164-167): 0.05 when the
primary text exceeds 120 chars or the joined fields exceed 160. -/
def longPenalty (fields : List String) : Rat :=
  if decide (120 < (fields.headD "").data.length)
      || decide (160 < (joinSpace fields).data.length) then 5/100 else 0

/-- `locator._score_element`: the sentinel −1.0 for elements with no
label-ish content, otherwise the weighted base plus the adjustments above. -/
def score_element (intentNorm : String) (intentTokens : List String)
    (quoted : List String) (el : Element) (db : Option (Rat × Rat × Rat × Rat)) : Rat :=
  if (fieldsOf el).all (fun f => f == "") then -1
  else
    (55/100 : Rat) * fieldwiseFuzzy intentNorm (fieldsOf el)
    + (35/100 : Rat) * tokenOverlap intentTokens (tokensOf (joinSpace (fieldsOf el)))
    + roleBonus intentNorm (lowerStr (el.role.getD "")) (lowerStr (el.tag.getD ""))
    + dialogAdj db el
    + quoteBonus quoted (fieldsOf el)
    - longPenalty (fieldsOf el)

/-- The score the locator assigns to `el` for `intent` against `perceived`
(the argument wiring of `locate_element_for_intent` lines 189-198). -/
def scoreOf (intent : String) (perceived : List Element) (el : Element) : Rat :=
  score_element (normalize_intent intent) (tokensOf (normalize_intent intent))
    (extract_quoted intent) el (find_dialog_bounds perceived)

/-! ### The stable descending sort (`scored.sort(key=..., reverse=True)`;
Python's sort is stable, so equal scores keep snapshot enumeration order). -/

/-- Insert after every entry of score ≥ the new one (stability). -/
def insertDesc (p : Rat × Element) : List (Rat × Element) → List (Rat × Element)
  | [] => [p]
  | q :: rest => if p.1 ≤ q.1 then q :: insertDesc p rest else p :: q :: rest

/-- Stable descending sort by score. -/
def sortDesc (l : List (Rat × Element)) : List (Rat × Element) :=
  l.foldl (fun acc p => insertDesc p acc) []

/-- The scored, filtered (score > −1.0) and descending-sorted candidate list
shared by the two public locator accessors. -/
def locateScored (intent : String) (perceived : List Element) : List (Rat × Element) :=
  sortDesc ((perceived.map (fun el => (scoreOf intent perceived el, el))).filter
    (fun p => decide ((-1 : Rat) < p.1)))

/-- `locator.locate_element_for_intent` on a readable snapshot: the best
element, or `none` when no candidate survives scoring. -/
def locate_element_for_intent (intent : String) (perceived : List Element) : Option Element :=
  match locateScored intent perceived with
  | [] => none
  | (_, el) :: _ => some el

/-- `locator.locate_top_candidates` on a readable snapshot: the first
`max(1, k)` elements of the same ordering. -/
def locate_top_candidates (intent : String) (perceived : List Element) (k : Nat) : List Element :=
  ((locateScored intent perceived).take (max 1 k)).map (fun p => p.2)

/-! ## Bounds for the scoring terms -/

theorem fieldwiseFuzzy_nonneg (n : String) (fields : List String) :
    0 ≤ fieldwiseFuzzy n fields := by
  unfold fieldwiseFuzzy
  refine (foldl_preserve (P := fun q : Rat => 0 ≤ q) _ ?_ fields 0 le_rfl)
  intro acc f hacc
  dsimp only
  split
  · exact hacc
  · split
    · exact seqRatioQ_nonneg _ _
    · exact hacc

theorem fieldwiseFuzzy_le_one (n : String) (fields : List String) :
    fieldwiseFuzzy n fields ≤ 1 := by
  unfold fieldwiseFuzzy
  refine (foldl_preserve (P := fun q : Rat => q ≤ 1) _ ?_ fields 0 zero_le_one)
  intro acc f hacc
  dsimp only
  split
  · exact hacc
  · split
    · exact seqRatioQ_le_one _ _
    · exact hacc

theorem tokenOverlap_nonneg (a b : List String) : 0 ≤ tokenOverlap a b := by
  unfold tokenOverlap
  split
  · exact le_rfl
  · exact div_nonneg (Nat.cast_nonneg _) (Nat.cast_nonneg _)

theorem tokenOverlap_le_one (a b : List String) : tokenOverlap a b ≤ 1 := by
  unfold tokenOverlap
  split
  · exact zero_le_one
  · have hpos : (0 : Nat) < max 1 a.eraseDups.length := by omega
    rw [div_le_one (by exact_mod_cast hpos)]
    have hle : (a.eraseDups.filter (fun t => b.contains t)).length ≤ a.eraseDups.length :=
      List.length_filter_le _ _
    exact_mod_cast (by omega : (a.eraseDups.filter (fun t => b.contains t)).length ≤ max 1 a.eraseDups.length)

theorem roleBonus_nonneg (n role tag : String) : 0 ≤ roleBonus n role tag := by
  unfold roleBonus
  split_ifs <;> norm_num

theorem roleBonus_le (n role tag : String) : roleBonus n role tag ≤ 19/100 := by
  unfold roleBonus
  split_ifs <;> norm_num

theorem dialogAdj_ge (db : Option (Rat × Rat × Rat × Rat)) (el : Element) :
    -(4/100) ≤ dialogAdj db el := by
  cases db with
  | none =>
    simp only [dialogAdj]
    norm_num
  | some b =>
    simp only [dialogAdj]
    split_ifs <;> norm_num

theorem dialogAdj_le (db : Option (Rat × Rat × Rat × Rat)) (el : Element) :
    dialogAdj db el ≤ 8/100 := by
  cases db with
  | none =>
    simp only [dialogAdj]
    norm_num
  | some b =>
    simp only [dialogAdj]
    split_ifs <;> norm_num

theorem quoteBonus_cases (quoted fields : List String) :
    quoteBonus quoted fields = 0 ∨ quoteBonus quoted fields = 30/100 := by
  cases quoted with
  | nil => exact Or.inl rfl
  | cons q0 rest =>
    simp only [quoteBonus]
    split_ifs <;> simp

theorem longPenalty_cases (fields : List String) :
    longPenalty fields = 0 ∨ longPenalty fields = 5/100 := by
  unfold longPenalty
  split_ifs <;> simp

/-- An element with no label-bearing field gets the exclusion sentinel. -/
theorem score_element_unlabeled (n : String) (tk quoted : List String) (el : Element)
    (db : Option (Rat × Rat × Rat × Rat))
    (h : (fieldsOf el).all (fun f => f == "") = true) :
    score_element n tk quoted el db = -1 := by
  unfold score_element
  rw [if_pos h]

/-- A labeled element's score lies in `[-0.09, 1.47]`: the sum of the maximal
penalties and the sum of the maximal bonuses. -/
theorem score_element_bounds (n : String) (tk quoted : List String) (el : Element)
    (db : Option (Rat × Rat × Rat × Rat))
    (h : (fieldsOf el).all (fun f => f == "") = false) :
    -(9/100) ≤ score_element n tk quoted el db ∧ score_element n tk quoted el db ≤ 147/100 := by
  unfold score_element
  rw [if_neg (by simp [h])]
  have h1 := fieldwiseFuzzy_nonneg n (fieldsOf el)
  have h2 := fieldwiseFuzzy_le_one n (fieldsOf el)
  have h3 := tokenOverlap_nonneg tk (tokensOf (joinSpace (fieldsOf el)))
  have h4 := tokenOverlap_le_one tk (tokensOf (joinSpace (fieldsOf el)))
  have h5 := roleBonus_nonneg n (lowerStr (el.role.getD "")) (lowerStr (el.tag.getD ""))
  have h6 := roleBonus_le n (lowerStr (el.role.getD "")) (lowerStr (el.tag.getD ""))
  have h7 := dialogAdj_ge db el
  have h8 := dialogAdj_le db el
  have h9 := quoteBonus_cases quoted (fieldsOf el)
  have h10 := longPenalty_cases (fieldsOf el)
  constructor
  · rcases h9 with h9 | h9 <;> rcases h10 with h10 | h10 <;> rw [h9, h10] <;> nlinarith
  · rcases h9 with h9 | h9 <;> rcases h10 with h10 | h10 <;> rw [h9, h10] <;> nlinarith

/-! ## The sort: permutation, sortedness, head maximality -/

theorem insertDesc_perm (p : Rat × Element) (l : List (Rat × Element)) :
    List.Perm (insertDesc p l) (p :: l) := by
  induction l with
  | nil => exact List.Perm.refl _
  | cons q rest ih =>
    unfold insertDesc
    split
    · exact (List.Perm.cons q ih).trans (List.Perm.swap p q rest)
    · exact List.Perm.refl _

theorem sortDesc_perm (l : List (Rat × Element)) : List.Perm (sortDesc l) l := by
  have key : ∀ (l acc : List (Rat × Element)),
      List.Perm (l.foldl (fun acc p => insertDesc p acc) acc) (l ++ acc) := by
    intro l
    induction l with
    | nil => intro acc; simp
    | cons p rest ih =>
      intro acc
      have h1 : List.Perm ((p :: rest).foldl (fun acc p => insertDesc p acc) acc)
          (rest ++ insertDesc p acc) := by simpa using ih (insertDesc p acc)
      have h2 : List.Perm (rest ++ insertDesc p acc) (rest ++ (p :: acc)) :=
        List.Perm.append_left rest (insertDesc_perm p acc)
      have h3 : List.Perm (rest ++ (p :: acc)) (p :: (rest ++ acc)) :=
        List.perm_middle
      simpa using (h1.trans h2).trans h3
  simpa using key l []

theorem mem_insertDesc {x p : Rat × Element} {l : List (Rat × Element)} :
    x ∈ insertDesc p l ↔ x = p ∨ x ∈ l := by
  rw [(insertDesc_perm p l).mem_iff]
  simp

theorem pairwise_insertDesc {p : Rat × Element} {l : List (Rat × Element)}
    (h : List.Pairwise (fun a b : Rat × Element => b.1 ≤ a.1) l) :
    List.Pairwise (fun a b : Rat × Element => b.1 ≤ a.1) (insertDesc p l) := by
  induction l with
  | nil => simp [insertDesc]
  | cons q rest ih =>
    rw [List.pairwise_cons] at h
    unfold insertDesc
    split
    · rename_i hle
      rw [List.pairwise_cons]
      constructor
      · intro r hr
        rcases mem_insertDesc.mp hr with rfl | hr
        · exact hle
        · exact h.1 r hr
      · exact ih h.2
    · rename_i hgt
      push_neg at hgt
      rw [List.pairwise_cons]
      constructor
      · intro r hr
        rcases List.mem_cons.mp hr with rfl | hr
        · exact le_of_lt hgt
        · exact le_trans (h.1 r hr) (le_of_lt hgt)
      · rw [List.pairwise_cons]
        exact h

theorem pairwise_sortDesc (l : List (Rat × Element)) :
    List.Pairwise (fun a b : Rat × Element => b.1 ≤ a.1) (sortDesc l) := by
  unfold sortDesc
  refine foldl_preserve
    (P := fun acc => List.Pairwise (fun a b : Rat × Element => b.1 ≤ a.1) acc) _ ?_ l [] (by simp)
  intro acc p hacc
  exact pairwise_insertDesc hacc

/-- The head of the sorted list is a member of the input with maximal score. -/
theorem head_sortDesc_max {l : List (Rat × Element)} {p : Rat × Element}
    (h : (sortDesc l).head? = some p) : p ∈ l ∧ ∀ q ∈ l, q.1 ≤ p.1 := by
  cases hs : sortDesc l with
  | nil => rw [hs] at h; cases h
  | cons p0 t =>
    rw [hs] at h
    injection h with h
    subst h
    have hperm := sortDesc_perm l
    rw [hs] at hperm
    constructor
    · exact hperm.mem_iff.mp (List.mem_cons_self _ _)
    · intro q hq
      have hq' : q ∈ p0 :: t := hperm.mem_iff.mpr hq
      rcases List.mem_cons.mp hq' with rfl | hq'
      · exact le_rfl
      · have hpw := pairwise_sortDesc l
        rw [hs, List.pairwise_cons] at hpw
        exact hpw.1 q hq'

/-- Every entry of the shared scored list is a snapshot member whose recorded
score is its `scoreOf` and exceeds the exclusion sentinel. -/
theorem mem_locateScored {intent : String} {perceived : List Element}
    {pr : Rat × Element} (h : pr ∈ locateScored intent perceived) :
    pr.2 ∈ perceived ∧ pr.1 = scoreOf intent perceived pr.2 ∧ (-1 : Rat) < pr.1 := by
  unfold locateScored at h
  have h' := (sortDesc_perm _).mem_iff.mp h
  rw [List.mem_filter] at h'
  obtain ⟨hmem, hgt⟩ := h'
  rw [List.mem_map] at hmem
  obtain ⟨el, hel, heq⟩ := hmem
  constructor
  · rw [← heq]; exact hel
  constructor
  · rw [← heq]
  · exact of_decide_eq_true hgt

/-- If a snapshot member has a score strictly above every other member's and
above the sentinel, the locator returns it. -/
theorem locate_eq_of_strict_max {intent : String} {perceived : List Element}
    {m : Element} (hm : m ∈ perceived) (hgt : (-1 : Rat) < scoreOf intent perceived m)
    (hmax : ∀ e ∈ perceived, e ≠ m → scoreOf intent perceived e < scoreOf intent perceived m) :
    locate_element_for_intent intent perceived = some m := by
  have hmem : (scoreOf intent perceived m, m) ∈ locateScored intent perceived := by
    unfold locateScored
    refine (sortDesc_perm _).mem_iff.mpr ?_
    rw [List.mem_filter]
    constructor
    · rw [List.mem_map]
      exact ⟨m, hm, rfl⟩
    · exact decide_eq_true hgt
  unfold locate_element_for_intent
  cases hs : locateScored intent perceived with
  | nil => rw [hs] at hmem; cases hmem
  | cons p0 t =>
    have hhead : (sortDesc ((perceived.map (fun el => (scoreOf intent perceived el, el))).filter
        (fun p => decide ((-1 : Rat) < p.1)))).head? = some p0 := by
      have : locateScored intent perceived = p0 :: t := hs
      unfold locateScored at this
      rw [this]
      rfl
    have hmax0 := head_sortDesc_max hhead
    have hp0 : p0 ∈ locateScored intent perceived := by rw [hs]; exact List.mem_cons_self _ _
    obtain ⟨hp0mem, hp0score, _⟩ := mem_locateScored hp0
    by_cases he : p0.2 = m
    · simp [he]
    · exfalso
      have h1 : scoreOf intent perceived p0.2 < scoreOf intent perceived m :=
        hmax p0.2 hp0mem he
      have h2 : scoreOf intent perceived m ≤ p0.1 := by
        have hmem' : (scoreOf intent perceived m, m) ∈
            ((perceived.map (fun el => (scoreOf intent perceived el, el))).filter
              (fun p => decide ((-1 : Rat) < p.1))) := by
          have hmem2 := hmem
          unfold locateScored at hmem2
          exact (sortDesc_perm _).mem_iff.mp hmem2
        exact hmax0.2 _ hmem'
      rw [hp0score] at h2
      exact absurd (lt_of_le_of_lt h2 h1) (lt_irrefl _)

/-- C10: the two public locator accessors agree: the head of the top-K list
is exactly the best-candidate result, and the top-K list is empty precisely
when the best candidate is absent (both share `locateScored`). -/
theorem locator_accessors_agree (intent : String) (perceived : List Element) (k : Nat) :
    (locate_top_candidates intent perceived k).head? = locate_element_for_intent intent perceived
    ∧ (locate_top_candidates intent perceived k = [] ↔
        locate_element_for_intent intent perceived = none) := by
  unfold locate_top_candidates locate_element_for_intent
  cases hs : locateScored intent perceived with
  | nil => simp
  | cons p t =>
    obtain ⟨j, hj⟩ : ∃ j, max 1 k = j + 1 := ⟨max 1 k - 1, by omega⟩
    rw [hj]
    cases p with
    | mk s el => simp [List.take_succ_cons]

/-- C8: scoring is bounded and exclusion is absolute.  Unlabeled elements
(no non-empty text/aria-label/title/tooltip) get the sentinel −1.0; labeled
elements score within `[-0.09, 1.47]` (sum of maximal penalties .. sum of
maximal bonuses), strictly above every unlabeled element; an unlabeled
element is never the best candidate nor among the top-K; and if the snapshot
is empty or consists only of unlabeled elements, the best-candidate result
is `none`. -/
theorem scorer_bounds_and_exclusion (intent : String) (perceived : List Element) (k : Nat) :
    (∀ el, (fieldsOf el).all (fun f => f == "") = true →
      scoreOf intent perceived el = -1)
    ∧ (∀ el, (fieldsOf el).all (fun f => f == "") = false →
      -(9/100) ≤ scoreOf intent perceived el ∧ scoreOf intent perceived el ≤ 147/100)
    ∧ (∀ el el', (fieldsOf el).all (fun f => f == "") = true →
      (fieldsOf el').all (fun f => f == "") = false →
      scoreOf intent perceived el < scoreOf intent perceived el')
    ∧ (∀ el, (fieldsOf el).all (fun f => f == "") = true →
      locate_element_for_intent intent perceived ≠ some el
      ∧ el ∉ locate_top_candidates intent perceived k)
    ∧ ((∀ el ∈ perceived, (fieldsOf el).all (fun f => f == "") = true) →
      locate_element_for_intent intent perceived = none) := by
  have hsent : ∀ el, (fieldsOf el).all (fun f => f == "") = true →
      scoreOf intent perceived el = -1 := by
    intro el h
    exact score_element_unlabeled _ _ _ _ _ h
  have hbnd : ∀ el, (fieldsOf el).all (fun f => f == "") = false →
      -(9/100) ≤ scoreOf intent perceived el ∧ scoreOf intent perceived el ≤ 147/100 := by
    intro el h
    exact score_element_bounds _ _ _ _ _ h
  refine ⟨hsent, hbnd, ?_, ?_, ?_⟩
  · intro el el' h h'
    rw [hsent el h]
    have := (hbnd el' h').1
    linarith
  · intro el h
    constructor
    · intro hloc
      unfold locate_element_for_intent at hloc
      cases hs : locateScored intent perceived with
      | nil => rw [hs] at hloc; cases hloc
      | cons p t =>
        rw [hs] at hloc
        cases p with
        | mk s e =>
          injection hloc with he
          have hmem : (s, e) ∈ locateScored intent perceived := by
            rw [hs]; exact List.mem_cons_self _ _
          obtain ⟨_, hscore, hgt⟩ := mem_locateScored hmem
          rw [hscore] at hgt
          rw [he] at hgt
          rw [hsent el h] at hgt
          exact absurd hgt (lt_irrefl _)
    · intro hmem
      unfold locate_top_candidates at hmem
      rw [List.mem_map] at hmem
      obtain ⟨pr, hpr, heq⟩ := hmem
      have hpr' : pr ∈ locateScored intent perceived := List.take_subset _ _ hpr
      obtain ⟨_, hscore, hgt⟩ := mem_locateScored hpr'
      rw [hscore, heq, hsent el h] at hgt
      exact absurd hgt (lt_irrefl _)
  · intro hall
    unfold locate_element_for_intent
    have hnil : locateScored intent perceived = [] := by
      unfold locateScored
      have : (perceived.map (fun el => (scoreOf intent perceived el, el))).filter
          (fun p => decide ((-1 : Rat) < p.1)) = [] := by
        rw [List.filter_eq_nil_iff]
        intro pr hpr
        rw [List.mem_map] at hpr
        obtain ⟨el, hel, heq⟩ := hpr
        rw [← heq]
        simp only [decide_eq_true_eq]
        rw [hsent el (hall el hel)]
        exact lt_irrefl _
      rw [this]
      rfl
    rw [hnil]

/-- A super-bonus hit implies the element is labeled (the matching field is
non-empty since the literal's lowercase form is non-empty). -/
theorem quoteBonus_thirty_labeled {quoted fields : List String}
    (h : quoteBonus quoted fields = 30/100) :
    fields.all (fun f => f == "") = false := by
  cases hq : quoted with
  | nil => rw [hq] at h; norm_num [quoteBonus] at h
  | cons q0 rest =>
    rw [hq] at h
    simp only [quoteBonus] at h
    split at h
    · rename_i hcond
      rw [Bool.and_eq_true] at hcond
      obtain ⟨hq0, hany⟩ := hcond
      rw [List.any_eq_true] at hany
      obtain ⟨f, hf, hfe⟩ := hany
      by_contra hall
      rw [Bool.not_eq_false, List.all_eq_true] at hall
      have hfempty : f = "" := by
        have := hall f hf
        simpa using this
      rw [hfempty] at hfe
      have : lowerStr (trimStr "") = "" := rfl
      rw [this] at hfe
      have : lowerStr q0 = "" := (beq_iff_eq.mp hfe).symm
      rw [this] at hq0
      simp at hq0
    · norm_num at h

/-- C5 (amended): the quoted-literal super-bonus dominates the role/tag
bonuses.  If the first quoted literal of the intent matches exactly one
snapshot element `m` (the code's own +0.30 condition), and no other element
beats `m` on the fuzzy, token-overlap, dialog-adjustment, or length-penalty
terms, then the best candidate is `m`, regardless of the role/tag bonuses
(at most 0.19 < 0.30) the other elements earn. -/
theorem quoted_superbonus_dominates_role_bonuses
    (intent : String) (perceived : List Element) (m : Element)
    (hm : m ∈ perceived)
    (hq : quoteBonus (extract_quoted intent) (fieldsOf m) = 30/100)
    (huniq : ∀ e ∈ perceived, quoteBonus (extract_quoted intent) (fieldsOf e) ≠ 0 → e = m)
    (hdom : ∀ e ∈ perceived, e ≠ m →
      fieldwiseFuzzy (normalize_intent intent) (fieldsOf e)
          ≤ fieldwiseFuzzy (normalize_intent intent) (fieldsOf m)
      ∧ tokenOverlap (tokensOf (normalize_intent intent)) (tokensOf (joinSpace (fieldsOf e)))
          ≤ tokenOverlap (tokensOf (normalize_intent intent)) (tokensOf (joinSpace (fieldsOf m)))
      ∧ dialogAdj (find_dialog_bounds perceived) e ≤ dialogAdj (find_dialog_bounds perceived) m
      ∧ longPenalty (fieldsOf m) ≤ longPenalty (fieldsOf e)) :
    locate_element_for_intent intent perceived = some m := by
  have hlabm := quoteBonus_thirty_labeled hq
  have hexp : ∀ e : Element, (fieldsOf e).all (fun f => f == "") = false →
      scoreOf intent perceived e =
        (55/100 : Rat) * fieldwiseFuzzy (normalize_intent intent) (fieldsOf e)
        + (35/100 : Rat) * tokenOverlap (tokensOf (normalize_intent intent))
            (tokensOf (joinSpace (fieldsOf e)))
        + roleBonus (normalize_intent intent) (lowerStr (e.role.getD ""))
            (lowerStr (e.tag.getD ""))
        + dialogAdj (find_dialog_bounds perceived) e
        + quoteBonus (extract_quoted intent) (fieldsOf e)
        - longPenalty (fieldsOf e) := by
    intro e he
    unfold scoreOf score_element
    rw [if_neg (by simp [he])]
  have hm_score := hexp m hlabm
  have hgtm : (-1 : Rat) < scoreOf intent perceived m := by
    rw [hm_score, hq]
    have b1 := fieldwiseFuzzy_nonneg (normalize_intent intent) (fieldsOf m)
    have b2 := tokenOverlap_nonneg (tokensOf (normalize_intent intent))
      (tokensOf (joinSpace (fieldsOf m)))
    have b3 := roleBonus_nonneg (normalize_intent intent) (lowerStr (m.role.getD ""))
      (lowerStr (m.tag.getD ""))
    have b4 := dialogAdj_ge (find_dialog_bounds perceived) m
    have b5 := longPenalty_cases (fieldsOf m)
    rcases b5 with b5 | b5 <;> rw [b5] <;> nlinarith
  refine locate_eq_of_strict_max hm hgtm ?_
  intro e he hne
  cases hlab : (fieldsOf e).all (fun f => f == "") with
  | true =>
    have hse : scoreOf intent perceived e = -1 := by
      unfold scoreOf
      exact score_element_unlabeled _ _ _ _ _ hlab
    rw [hse]
    exact hgtm
  | false =>
    have he_score := hexp e hlab
    have hqb : quoteBonus (extract_quoted intent) (fieldsOf e) = 0 := by
      rcases quoteBonus_cases (extract_quoted intent) (fieldsOf e) with h0 | h30
      · exact h0
      · exact absurd (huniq e he (by rw [h30]; norm_num)) hne
    obtain ⟨d1, d2, d3, d4⟩ := hdom e he hne
    have r1 := roleBonus_le (normalize_intent intent) (lowerStr (e.role.getD ""))
      (lowerStr (e.tag.getD ""))
    have r2 := roleBonus_nonneg (normalize_intent intent) (lowerStr (m.role.getD ""))
      (lowerStr (m.tag.getD ""))
    rw [he_score, hm_score, hq, hqb]
    nlinarith

/-- C6 (amended): with an active dialog of sufficient size, an element
outside the dialog bounds never outranks an element inside them that carries
the same text, aria-label, title, tooltip AND the same role and tag (all
score terms then coincide except the dialog adjustment: +0.08 inside versus
−0.04 outside), for any intent. -/
theorem dialog_scope_never_outranked
    (intent : String) (perceived : List Element) (b : Rat × Rat × Rat × Rat)
    (eIn eOut : Element)
    (hIn : eIn ∈ perceived) (hOut : eOut ∈ perceived)
    (hdb : find_dialog_bounds perceived = some b)
    (htext : eOut.text = eIn.text) (haria : eOut.aria_label = eIn.aria_label)
    (htitle : eOut.title = eIn.title) (htip : eOut.tooltip = eIn.tooltip)
    (hrole : eOut.role = eIn.role) (htag : eOut.tag = eIn.tag)
    (hin : insideB b eIn = true) (hout : insideB b eOut = false) :
    scoreOf intent perceived eOut ≤ scoreOf intent perceived eIn := by
  have hfields : fieldsOf eOut = fieldsOf eIn := by
    unfold fieldsOf
    rw [htext, haria, htitle, htip]
  unfold scoreOf score_element
  rw [hfields, hrole, htag, hdb]
  cases hlab : (fieldsOf eIn).all (fun f => f == "") with
  | true => simp [hlab]
  | false =>
    rw [if_neg (by simp), if_neg (by simp)]
    have hdIn : dialogAdj (some b) eIn = 8/100 := by
      simp only [dialogAdj]
      rw [if_pos hin]
    have hdOut : dialogAdj (some b) eOut = -(4/100) := by
      simp only [dialogAdj]
      rw [if_neg (by simp [hout])]
    rw [hdIn, hdOut]
    linarith

/-- C7 (amended): the super-bonus is decided by the FIRST quoted literal
alone.  (a) literals after the first never affect the score; (b) relative to
an intent with no quoted literal, the score changes exactly by +0.30 when
the first literal, lowercased and non-empty, equals one of the element's
four stripped lowercased fields, and by 0 otherwise. -/
theorem quote_superbonus_uses_first_literal :
    (∀ (nI : String) (tI : List String) (q0 : String) (r1 r2 : List String)
      (el : Element) (db : Option (Rat × Rat × Rat × Rat)),
      score_element nI tI (q0 :: r1) el db = score_element nI tI (q0 :: r2) el db)
    ∧ (∀ (nI : String) (tI : List String) (q0 : String) (r : List String)
      (el : Element) (db : Option (Rat × Rat × Rat × Rat)),
      score_element nI tI (q0 :: r) el db = score_element nI tI [] el db
        + (if (!(lowerStr q0 == "")
              && (fieldsOf el).any (fun f => lowerStr (trimStr f) == lowerStr q0)) = true
           then 30/100 else 0)) := by
  constructor
  · intro nI tI q0 r1 r2 el db
    unfold score_element
    rfl
  · intro nI tI q0 r el db
    unfold score_element
    cases hlab : (fieldsOf el).all (fun f => f == "") with
    | true =>
      rw [if_pos rfl, if_pos rfl]
      have hnohit : ((fieldsOf el).any (fun f => lowerStr (trimStr f) == lowerStr q0)) = true
          → lowerStr q0 = "" := by
        intro hany
        rw [List.any_eq_true] at hany
        obtain ⟨f, hf, hfe⟩ := hany
        rw [List.all_eq_true] at hlab
        have hfempty : f = "" := by simpa using hlab f hf
        rw [hfempty] at hfe
        exact ((beq_iff_eq.mp hfe)).symm
      cases hhit : (!(lowerStr q0 == "")
          && (fieldsOf el).any (fun f => lowerStr (trimStr f) == lowerStr q0)) with
      | false => simp
      | true =>
        rw [Bool.and_eq_true] at hhit
        have := hnohit hhit.2
        rw [this] at hhit
        simp at hhit
    | false =>
      rw [if_neg (by simp), if_neg (by simp)]
      simp only [quoteBonus]
      split_ifs <;> ring

/-! ## Concrete inputs for the locator claims -/

/-- An element whose text is exactly the quoted literal of the intent
`click 'x'`. -/
def elCx5A : Element := ⟨some "x", none, none, none, none, none, none, none, none, none⟩

/-- A button whose text equals the whole intent (maximal fuzzy/overlap) but
does not equal the quoted literal. -/
def elCx5B : Element :=
  ⟨some "click \x27x\x27", none, none, none, some "button", some "button", none, none, none, none⟩

/-- C5 counterexample: the quoted literal `x` matches exactly one element
(`elCx5A`, which earns the +0.30 super-bonus), yet the best candidate is the
other element: fuzzy similarity and token overlap (0.99 total) overwhelm the
super-bonus element's 0.585.  Super-bonus dominance as claimed fails. -/
theorem quoted_superbonus_cx :
    extract_quoted "click \x27x\x27" = ["x"]
    ∧ quoteBonus (extract_quoted "click \x27x\x27") (fieldsOf elCx5A) = 30/100
    ∧ quoteBonus (extract_quoted "click \x27x\x27") (fieldsOf elCx5B) = 0
    ∧ locate_element_for_intent "click \x27x\x27" [elCx5A, elCx5B] = some elCx5B
    ∧ elCx5B ≠ elCx5A := by
  refine ⟨by decide, by with_unfolding_all decide, by with_unfolding_all decide,
    by with_unfolding_all decide, by decide⟩

/-- The element of the C5 witness snapshot. -/
def elW5 : Element := ⟨some "x", none, none, none, none, none, none, none, none, none⟩

theorem quoted_superbonus_witness :
    locate_element_for_intent "click \x27x\x27" [elW5] = some elW5 :=
  quoted_superbonus_dominates_role_bonuses "click \x27x\x27" [elW5] elW5
    (by decide) (by with_unfolding_all decide) (by with_unfolding_all decide)
    (by with_unfolding_all decide)

/-- The dialog of the C6 snapshots: role `dialog`, 100×100 at the origin. -/
def elD6 : Element :=
  ⟨none, none, none, none, some "dialog", none, some 0, some 0, some 100, some 100⟩

/-- Inside the dialog, label `x`, no role/tag. -/
def elI6 : Element :=
  ⟨some "x", none, none, none, none, none, some 10, some 10, some 10, some 10⟩

/-- Outside the dialog, identical label `x`, but role `button` and tag
`input`. -/
def elO6 : Element :=
  ⟨some "x", none, none, none, some "button", some "input", some 200, some 0, some 10, some 10⟩

/-- C6 counterexample: with the dialog active and identical text fields, the
outside element outranks the inside one for the intent `click fill x`: its
role/tag bonuses (+0.06 +0.10) exceed the dialog spread (0.08 + 0.04). -/
theorem dialog_scope_cx :
    find_dialog_bounds [elD6, elI6, elO6] = some (0, 0, 100, 100)
    ∧ insideB (0, 0, 100, 100) elI6 = true
    ∧ insideB (0, 0, 100, 100) elO6 = false
    ∧ fieldsOf elO6 = fieldsOf elI6
    ∧ scoreOf "click fill x" [elD6, elI6, elO6] elI6
        < scoreOf "click fill x" [elD6, elI6, elO6] elO6 := by
  refine ⟨by with_unfolding_all decide, by with_unfolding_all decide,
    by with_unfolding_all decide, by decide, by with_unfolding_all decide⟩

/-- Outside the dialog, identical to `elI6` in every labelled field and in
role/tag; only the position differs. -/
def elO6W : Element :=
  ⟨some "x", none, none, none, none, none, some 200, some 0, some 10, some 10⟩

theorem dialog_scope_witness :
    scoreOf "click fill x" [elD6, elI6, elO6W] elO6W
      ≤ scoreOf "click fill x" [elD6, elI6, elO6W] elI6 :=
  dialog_scope_never_outranked "click fill x" [elD6, elI6, elO6W] (0, 0, 100, 100)
    elI6 elO6W (by decide) (by decide) (by with_unfolding_all decide)
    (by decide) (by decide) (by decide) (by decide) (by decide) (by decide)
    (by with_unfolding_all decide) (by with_unfolding_all decide)

/-- An element whose text equals the SECOND quoted literal of the intent. -/
def elQ7 : Element := ⟨some "b", none, none, none, none, none, none, none, none, none⟩

/-- C7 counterexample: the intent `click 'a' 'b'` carries the literal `b`,
which matches the element's text exactly, but the scorer adds no super-bonus
(the score equals the no-literal score): only the first literal `a` is
consulted. -/
theorem quote_superbonus_first_cx :
    extract_quoted "click \x27a\x27 \x27b\x27" = ["a", "b"]
    ∧ ((fieldsOf elQ7).any (fun f => lowerStr (trimStr f) == lowerStr "b")) = true
    ∧ quoteBonus (extract_quoted "click \x27a\x27 \x27b\x27") (fieldsOf elQ7) = 0
    ∧ quoteBonus ["b"] (fieldsOf elQ7) = 30/100
    ∧ score_element (normalize_intent "click \x27a\x27 \x27b\x27")
        (tokensOf (normalize_intent "click \x27a\x27 \x27b\x27"))
        (extract_quoted "click \x27a\x27 \x27b\x27") elQ7 none
      = score_element (normalize_intent "click \x27a\x27 \x27b\x27")
        (tokensOf (normalize_intent "click \x27a\x27 \x27b\x27")) [] elQ7 none := by
  refine ⟨by decide, by decide, by with_unfolding_all decide,
    by with_unfolding_all decide, by with_unfolding_all decide⟩

/-- An unlabeled element: every text attribute missing. -/
def elEmpty8 : Element := ⟨none, none, none, none, none, none, none, none, none, none⟩

theorem scorer_exclusion_witness :
    locate_element_for_intent "open settings" [elEmpty8] = none :=
  (scorer_bounds_and_exclusion "open settings" [elEmpty8] 3).2.2.2.2 (by decide)

/-- A labeled element for the C10 witness snapshot. -/
def elW10 : Element := ⟨some "b", none, none, none, none, none, none, none, none, none⟩

theorem locator_accessors_witness :
    (locate_top_candidates "z" [elW10] 5).head? = locate_element_for_intent "z" [elW10] :=
  (locator_accessors_agree "z" [elW10] 5).1

/-! ## The verification router (`runner/verifier.py`)

The live-page primitives (`verify_dialog_open`, `verify_url_contains`,
`verify_textbox_value`, the first-textbox probe, `verify_element_exists`,
`verify_text_visible`) are external effects on the browser; they are
abstracted as a probe record.  `verify_step` itself — the router — is pure:
it inspects only the expected-state/intent strings and dispatches to the
first matching rule. -/

structure PageProbe where
  dialogOpen : Option String → Bool
  urlContains : String → Bool
  textboxValue : String → Bool
  textboxExists : Bool
  roleNameExists : String → String → Bool
  textVisible : String → Bool

/-- `_extract_all_quoted(es) or _extract_all_quoted(intent)`: the quoted
literals of the stripped expected state, falling back to the intent's. -/
def verifyQuoted (expected_state intent : String) : List String :=
  match extract_quoted (trimStr expected_state) with
  | [] => extract_quoted intent
  | q => q

/-- `verifier.verify_step`, instrumented with the index (1..7) of the rule
that produced the verdict.  The rule order and keyword lists are those of
lines 118-169 of the source; rule 2 falls through when no quoted literal is
present, rule 3 ignores an empty first literal (Python's `if target:`). -/
def verify_stepR (page : PageProbe) (intent expected_state : String) : Bool × Nat :=
  let el := lowerStr (trimStr expected_state)
  let quoted := verifyQuoted expected_state intent
  if ["dialog", "modal", "prompt"].any (fun k => strHasSub el k) then
    (page.dialogOpen quoted.head?, 1)
  else if (["url", "location", "path", "navigate", "navigated"].any (fun k => strHasSub el k))
      && !quoted.isEmpty then
    (page.urlContains (quoted.headD ""), 2)
  else if (["field", "input", "textbox", "editor"].any (fun k => strHasSub el k))
      && (["contains", "set to", "value", "filled"].any (fun k => strHasSub el k)) then
    match quoted with
    | q :: _ => if q == "" then (page.textboxExists, 3) else (page.textboxValue q, 3)
    | [] => (page.textboxExists, 3)
  else if (["button", "link", "menuitem", "tab"].any (fun k => strHasSub el k))
      && !quoted.isEmpty then
    (page.roleNameExists
      (if strHasSub el "button" then "button"
       else if strHasSub el "link" then "link"
       else if strHasSub el "menuitem" then "menuitem"
       else if strHasSub el "tab" then "tab" else "button")
      (quoted.headD ""), 4)
  else if (["visible", "appears", "shown", "displayed", "listed", "present"].any
      (fun k => strHasSub el k)) && !quoted.isEmpty then
    (page.textVisible (quoted.headD ""), 5)
  else if !quoted.isEmpty then
    (quoted.any page.textVisible, 6)
  else
    (true, 7)

/-- The boolean verdict of the router. -/
def verify_step (page : PageProbe) (intent expected_state : String) : Bool :=
  (verify_stepR page intent expected_state).1

/-- C9: when the lowercase expected outcome mentions a dialog keyword
(dialog/modal/prompt) — in particular together with a button/link/menuitem/
tab keyword — the verdict is rule 1's dialog check; the button-role
existence check (rule 4) is never evaluated. -/
theorem verify_router_dialog_precedence (page : PageProbe) (intent expected_state : String)
    (hd : (["dialog", "modal", "prompt"].any
      (fun k => strHasSub (lowerStr (trimStr expected_state)) k)) = true)
    (hb : (["button", "link", "menuitem", "tab"].any
      (fun k => strHasSub (lowerStr (trimStr expected_state)) k)) = true) :
    verify_stepR page intent expected_state
      = (page.dialogOpen (verifyQuoted expected_state intent).head?, 1) := by
  unfold verify_stepR
  rw [if_pos hd]

theorem verify_router_dialog_witness :
    verify_stepR
      ⟨fun _ => false, fun _ => false, fun _ => false, false, fun _ _ => false, fun _ => false⟩
      "Click New" "A dialog with button \x27Create\x27 appears"
      = (false, 1) :=
  verify_router_dialog_precedence
    ⟨fun _ => false, fun _ => false, fun _ => false, false, fun _ _ => false, fun _ => false⟩
    "Click New" "A dialog with button \x27Create\x27 appears" (by decide) (by decide)

/-! ## The recovery state machine (`runner/recovery.py`)

External effects are oracles: `perceive n` is the fresh snapshot captured
during attempt `n` (`capture_perception` overwrites the step's
perception.json, which the locator then reads back), and `execRes n i` is
the outcome of the `i`-th `execute_action` call of attempt `n` (`none`
models a raised exception, which the source swallows with `continue`).
The UI nudges (`_gentle_stabilize`, `_wait_if_dialog_expected`,
`_close_easy_popups`, the final Escape press) only touch the page and feed
no data back; the `stabilizations` counter records that they ran.  -/

structure ExecResult where
  status : String
deriving DecidableEq

structure RecResult where
  recovered : Bool
  attempts : Nat
  result : Option ExecResult
deriving DecidableEq

/-- A recovery outcome together with effect counters: how many re-perceptions,
stabilization rounds and executor calls happened. -/
structure RecOut where
  res : RecResult
  perceptions : Nat
  stabilizations : Nat
  execCalls : Nat
deriving DecidableEq

structure RecEnv where
  perceive : Nat → List Element
  execRes : Nat → Nat → Option ExecResult

/-- `recover_step` lines 88-98: top-5 candidates from the fresh snapshot,
falling back to the single best when the list is empty. -/
def recoveryCandidates (intent : String) (perceived : List Element) : List Element :=
  if (locate_top_candidates intent perceived 5).isEmpty then
    match locate_element_for_intent intent perceived with
    | some e => [e]
    | none => []
  else locate_top_candidates intent perceived 5

/-- `recover_step._is_same` lines 101-106: `False` when either side is
missing, else equality of the `(x, y, width, height)` tuples (missing
coordinates compare as `None`). -/
def isSameEl (a b : Option Element) : Bool :=
  match a, b with
  | some a, some b => a.x == b.x && a.y == b.y && a.width == b.width && a.height == b.height
  | _, _ => false

/-- `recover_step` lines 108-114: drop every candidate whose box equals the
previous element's; if that empties a non-empty list, restore it. -/
def orderCandidates (previous : Option Element) (candidates : List Element) : List Element :=
  if (candidates.filter (fun el => !isSameEl previous (some el))).isEmpty
      && !candidates.isEmpty then candidates
  else candidates.filter (fun el => !isSameEl previous (some el))

/-- `recover_step` lines 117-129: attempt the ranked candidates in order
until one reports status `success`; exceptions are swallowed.  `idx` counts
the executor calls made so far; the second component is the final count. -/
def tryCandidates (env : RecEnv) (attempt : Nat) :
    List Element → Nat → Option ExecResult × Nat
  | [], idx => (none, idx)
  | _el :: rest, idx =>
    match env.execRes attempt idx with
    | none => tryCandidates env attempt rest (idx + 1)
    | some r =>
      if r.status == "success" then (some r, idx + 1)
      else tryCandidates env attempt rest (idx + 1)

/-- The body of `recover_step`, with the over-limit guard encoded in the
`gas` argument: the wrapper below passes `gas = max_attempts + 1 - attempt`,
so `gas = 0` exactly when `attempt > max_attempts` (the guard of line 70),
and the recursive call of line 139 decrements `gas` while incrementing
`attempt`.  This makes the recursion structural, hence kernel-computable. -/
def recoverStepAux (env : RecEnv) (intent expected : String) (previous : Option Element) :
    Nat → Nat → RecOut
  | 0, attempt => ⟨⟨false, attempt - 1, none⟩, 0, 0, 0⟩
  | gas + 1, attempt =>
    match tryCandidates env attempt
        (orderCandidates previous (recoveryCandidates intent (env.perceive attempt))) 0 with
    | (some r, calls) => ⟨⟨true, attempt, some r⟩, 1, 1, calls⟩
    | (none, calls) =>
      let rest := recoverStepAux env intent expected previous gas (attempt + 1)
      ⟨rest.res, rest.perceptions + 1, rest.stabilizations + 1, rest.execCalls + calls⟩

/-- `recovery.recover_step` (the Python signature's page/app_name/dataset_dir
/step_idx plumbing lives in the oracles; `expected` feeds only the
dialog-wait nudge). -/
def recover_step (env : RecEnv) (intent expected : String) (previous : Option Element)
    (attempt max_attempts : Nat) : RecOut :=
  recoverStepAux env intent expected previous (max_attempts + 1 - attempt) attempt

/-- The literal transcription of the Python recursion: the guard
`attempt > max_attempts` is tested at entry and the recursive call passes
`attempt + 1`; `fuel` counts invocations and `none` means the fuel ran out
before a terminal state was reached. -/
def recoverStepFuel (env : RecEnv) (intent expected : String) (previous : Option Element) :
    Nat → Nat → Nat → Option RecOut
  | 0, _, _ => none
  | fuel + 1, attempt, max_attempts =>
    if max_attempts < attempt then some ⟨⟨false, attempt - 1, none⟩, 0, 0, 0⟩
    else
      match tryCandidates env attempt
          (orderCandidates previous (recoveryCandidates intent (env.perceive attempt))) 0 with
      | (some r, calls) => some ⟨⟨true, attempt, some r⟩, 1, 1, calls⟩
      | (none, calls) =>
        match recoverStepFuel env intent expected previous fuel (attempt + 1) max_attempts with
        | none => none
        | some rest =>
          some ⟨rest.res, rest.perceptions + 1, rest.stabilizations + 1, rest.execCalls + calls⟩

theorem recoverStepFuel_eq_aux (env : RecEnv) (intent expected : String)
    (previous : Option Element) (m : Nat) :
    ∀ (fuel a : Nat), m + 1 - a < fuel →
      recoverStepFuel env intent expected previous fuel a m
        = some (recoverStepAux env intent expected previous (m + 1 - a) a) := by
  intro fuel
  induction fuel with
  | zero => intro a h; exact absurd h (Nat.not_lt_zero _)
  | succ n ih =>
    intro a h
    by_cases hgt : m < a
    · have h0 : m + 1 - a = 0 := by omega
      rw [h0]
      simp only [recoverStepFuel, recoverStepAux]
      rw [if_pos hgt]
    · have h1 : m + 1 - a = (m - a) + 1 := by omega
      rw [h1]
      simp only [recoverStepFuel, recoverStepAux]
      rw [if_neg hgt]
      cases htc : tryCandidates env a
          (orderCandidates previous (recoveryCandidates intent (env.perceive a))) 0 with
      | mk r calls =>
        cases r with
        | some r => rfl
        | none =>
          have ihs := ih (a + 1) (by omega)
          have h2 : m + 1 - (a + 1) = m - a := by omega
          rw [h2] at ihs
          rw [ihs]

/-- C3: `recover_step` terminates with an explicit bound on the recursion
depth.  The literal fuelled transcription of the Python recursion reaches a
terminal `{recovered, attempts, result}` record (never exhausts its fuel)
whenever the fuel is `max_attempts + 2`, for EVERY environment, attempt
value and ceiling — and the value is the one the total function
`recover_step` computes. -/
theorem recover_step_terminates (env : RecEnv) (intent expected : String)
    (previous : Option Element) (attempt max_attempts : Nat) :
    recoverStepFuel env intent expected previous (max_attempts + 2) attempt max_attempts
      = some (recover_step env intent expected previous attempt max_attempts) := by
  unfold recover_step
  exact recoverStepFuel_eq_aux env intent expected previous max_attempts
    (max_attempts + 2) attempt (by omega)

/-- C2 (amended): a call with `attempt > max_attempts` returns immediately —
no stabilization, no re-perception, no executor call — with
`recovered = false`, no result, and `attempts_used = attempt - 1` (which is
`max_attempts` only for the internally-reachable case
`attempt = max_attempts + 1`). -/
theorem recover_step_overlimit (env : RecEnv) (intent expected : String)
    (previous : Option Element) (attempt max_attempts : Nat)
    (h : max_attempts < attempt) :
    recover_step env intent expected previous attempt max_attempts
      = ⟨⟨false, attempt - 1, none⟩, 0, 0, 0⟩ := by
  unfold recover_step
  have h0 : max_attempts + 1 - attempt = 0 := by omega
  rw [h0]
  rfl

/-- The trivial recovery environment: empty snapshots, every executor call
raises. -/
def recEnv0 : RecEnv := ⟨fun _ => [], fun _ _ => none⟩

theorem recover_step_overlimit_witness :
    recover_step recEnv0 "i" "e" none 4 2 = ⟨⟨false, 3, none⟩, 0, 0, 0⟩ :=
  recover_step_overlimit recEnv0 "i" "e" none 4 2 (by decide)

/-- C2 counterexample: called with `attempt = 4`, `max_attempts = 2`
(strictly greater), the terminal record carries `attempts_used = 3`, not
`max_attempts = 2` as the claim states. -/
theorem recover_step_overlimit_cx :
    (recover_step recEnv0 "i" "e" none 4 2).res.attempts = 3
    ∧ (recover_step recEnv0 "i" "e" none 4 2).res.attempts ≠ 2 := by
  refine ⟨by decide, by decide⟩

/-- C4: the candidate ordering of `recover_step` never starts with the
previously-failed bounding box when an alternative exists.  (1) If some
candidate has a distinct box, the first candidate of the ordering — the
first one an action is attempted on — has a distinct box.  (2) Only when
every candidate carries the identical box is the list restored unchanged. -/
theorem recovery_avoids_previous_box (p : Element) (cands : List Element) :
    ((∃ e ∈ cands, isSameEl (some p) (some e) = false) →
      ∀ e0, (orderCandidates (some p) cands).head? = some e0 →
        isSameEl (some p) (some e0) = false)
    ∧ ((∀ e ∈ cands, isSameEl (some p) (some e) = true) →
      orderCandidates (some p) cands = cands) := by
  constructor
  · rintro ⟨e, he, hne⟩ e0 h0
    have hmem : e ∈ cands.filter (fun el => !isSameEl (some p) (some el)) := by
      rw [List.mem_filter]
      exact ⟨he, by simp [hne]⟩
    have hne' : (cands.filter (fun el => !isSameEl (some p) (some el))).isEmpty = false := by
      cases hf : cands.filter (fun el => !isSameEl (some p) (some el)) with
      | nil => rw [hf] at hmem; cases hmem
      | cons a t => rfl
    unfold orderCandidates at h0
    rw [hne'] at h0
    simp only [Bool.false_and, if_neg] at h0
    have : e0 ∈ cands.filter (fun el => !isSameEl (some p) (some el)) := by
      cases hf : cands.filter (fun el => !isSameEl (some p) (some el)) with
      | nil => rw [hf] at h0; cases h0
      | cons a t =>
        rw [hf] at h0
        injection h0 with h0
        rw [← h0]
        exact List.mem_cons_self _ _
    rw [List.mem_filter] at this
    have := this.2
    simpa using this
  · intro hall
    have hf : cands.filter (fun el => !isSameEl (some p) (some el)) = [] := by
      rw [List.filter_eq_nil_iff]
      intro e he
      rw [hall e he]
      simp
    unfold orderCandidates
    rw [hf]
    cases cands with
    | nil => rfl
    | cons a t => rfl

/-- Previous element at box (1,2,3,4). -/
def elPrev4 : Element := ⟨some "p", none, none, none, none, none, some 1, some 2, some 3, some 4⟩

/-- A candidate with the same box as the failed element. -/
def elSame4 : Element := ⟨some "a", none, none, none, none, none, some 1, some 2, some 3, some 4⟩

/-- A candidate with a distinct box. -/
def elDiff4 : Element := ⟨some "b", none, none, none, none, none, some 9, some 2, some 3, some 4⟩

theorem recovery_avoids_previous_box_witness :
    isSameEl (some elPrev4) (some elDiff4) = false :=
  (recovery_avoids_previous_box elPrev4 [elSame4, elDiff4]).1
    ⟨elDiff4, by decide, by with_unfolding_all decide⟩ elDiff4 (by with_unfolding_all decide)

/-! ## The step orchestrator (`runner/orchestrator.py`)

Per step, `run_plan` (lines 70-149) captures perception, locates an element,
executes the action, verifies, and persists `step.json`.  The snapshot, the
executor and the verifier verdict are oracles; `recoverCalls` counts how
many times `recover_step` is invoked (the import of line 17 is the only
mention of it in the source — the loop body never calls it). -/

structure ExecResultO where
  status : String
  action : String
  used_text : Option String
  tag : Option String
  label : Option String
  aria_label : Option String
  error : Option String
deriving DecidableEq

structure StepEnvO where
  perceived : List Element
  execute : Element → ExecResultO
  verifyOk : Bool

/-- The `step.json` record persisted for one step (lines 93-106 and
127-146): step_id, intent, expected_state, executor_status, verified, and
the executor metadata (absent in the skip branch). -/
structure StepMeta where
  step_id : Nat
  intent : String
  expected_state : String
  executor_status : String
  verified : Bool
  executor_meta : Option ExecResultO
deriving DecidableEq

structure StepOut where
  record : StepMeta
  recoverCalls : Nat
deriving DecidableEq

/-- One iteration of the plan loop of `run_plan`: locate; on a miss persist
`skipped_no_element`; else execute, verify, and persist the executor's own
status and the router's verdict.  No branch invokes `recover_step`. -/
def runPlanStep (env : StepEnvO) (step_idx : Nat) (intent expected : String) : StepOut :=
  match locate_element_for_intent intent env.perceived with
  | none => ⟨⟨step_idx, intent, expected, "skipped_no_element", false, none⟩, 0⟩
  | some el =>
    ⟨⟨step_idx, intent, expected, (env.execute el).status, env.verifyOk,
      some (env.execute el)⟩, 0⟩

structure RunEnv where
  stepEnv : Nat → StepEnvO

/-- `run_plan`'s loop over the plan (`enumerate(plan, start=1)`), producing
the per-step persisted records. -/
def run_plan (env : RunEnv) (plan : List (String × String)) : List StepOut :=
  plan.enum.map (fun p => runPlanStep (env.stepEnv (p.1 + 1)) (p.1 + 1) p.2.1 p.2.2)

/-- C1 (code behaviour): the orchestrator NEVER invokes the recovery state
machine — for every plan and environment every persisted step has zero
`recover_step` calls — and on a step whose executor reports a non-success
status or whose verification verdict is false, the persisted final outcome
is the raw executor status and verdict, not a recovery result.  This
contradicts the claim (and §4.5/§7 of the spec): `recover_step` is imported
but unused. -/
theorem run_plan_never_invokes_recovery :
    (∀ (env : RunEnv) (plan : List (String × String)) (out : StepOut),
      out ∈ run_plan env plan → out.recoverCalls = 0)
    ∧ (∀ (senv : StepEnvO) (idx : Nat) (i e : String) (el : Element),
      locate_element_for_intent i senv.perceived = some el →
      ((senv.execute el).status ≠ "success" ∨ senv.verifyOk = false) →
      runPlanStep senv idx i e
        = ⟨⟨idx, i, e, (senv.execute el).status, senv.verifyOk, some (senv.execute el)⟩, 0⟩) := by
  constructor
  · intro env plan out hout
    unfold run_plan at hout
    rw [List.mem_map] at hout
    obtain ⟨p, _, heq⟩ := hout
    rw [← heq]
    unfold runPlanStep
    cases locate_element_for_intent p.2.1 (env.stepEnv (p.1 + 1)).perceived <;> rfl
  · intro senv idx i e el hloc _hfail
    unfold runPlanStep
    rw [hloc]

/-- A step environment whose executor always fails and whose verification
verdict is false. -/
def stepEnvF : StepEnvO :=
  ⟨[elW10], fun _ => ⟨"fail", "click", none, none, none, none, none⟩, false⟩

theorem run_plan_never_invokes_recovery_witness :
    runPlanStep stepEnvF 1 "z" "out"
      = ⟨⟨1, "z", "out", "fail", false,
          some ⟨"fail", "click", none, none, none, none, none⟩⟩, 0⟩ :=
  run_plan_never_invokes_recovery.2 stepEnvF 1 "z" "out" elW10
    (by with_unfolding_all decide) (Or.inr rfl)
